import Mathlib

/-!
Shallow embedding of the `md5_core` Rust crate (`src/lib.rs`).

Bytes are modelled as `Nat` (values `< 256` in every real execution), `u32`/`u64`/`u128`
arithmetic as `Nat` arithmetic reduced `% 2 ^ 32` / `% 2 ^ 64` exactly where the source
wraps.  A Rust panic (out-of-bounds slice, `usize` subtraction underflow followed by an
oversized `vec!` allocation) is modelled as `Option.none`.
-/

namespace Md5Core

/-- The 64 additive constants `PRECOMPUTED_TABLE` from the source. -/
def PRECOMPUTED_TABLE : List Nat := [
  0xd76aa478, 0xe8c7b756, 0x242070db, 0xc1bdceee, 0xf57c0faf, 0x4787c62a, 0xa8304613,
  0xfd469501, 0x698098d8, 0x8b44f7af, 0xffff5bb1, 0x895cd7be, 0x6b901122, 0xfd987193,
  0xa679438e, 0x49b40821, 0xf61e2562, 0xc040b340, 0x265e5a51, 0xe9b6c7aa, 0xd62f105d,
  0x02441453, 0xd8a1e681, 0xe7d3fbc8, 0x21e1cde6, 0xc33707d6, 0xf4d50d87, 0x455a14ed,
  0xa9e3e905, 0xfcefa3f8, 0x676f02d9, 0x8d2a4c8a, 0xfffa3942, 0x8771f681, 0x6d9d6122,
  0xfde5380c, 0xa4beea44, 0x4bdecfa9, 0xf6bb4b60, 0xbebfbc70, 0x289b7ec6, 0xeaa127fa,
  0xd4ef3085, 0x04881d05, 0xd9d4d039, 0xe6db99e5, 0x1fa27cf8, 0xc4ac5665, 0xf4292244,
  0x432aff97, 0xab9423a7, 0xfc93a039, 0x655b59c3, 0x8f0ccc92, 0xffeff47d, 0x85845dd1,
  0x6fa87e4f, 0xfe2ce6e0, 0xa3014314, 0x4e0811a1, 0xf7537e82, 0xbd3af235, 0x2ad7d2bb,
  0xeb86d391]

/-- The 64 per-step rotation amounts `SHIFT_TABLE` from the source. -/
def SHIFT_TABLE : List Nat := [
  7, 12, 17, 22, 7, 12, 17, 22, 7, 12, 17, 22, 7, 12, 17, 22, 5, 9, 14, 20, 5, 9, 14, 20,
  5, 9, 14, 20, 5, 9, 14, 20, 4, 11, 16, 23, 4, 11, 16, 23, 4, 11, 16, 23, 4, 11, 16, 23,
  6, 10, 15, 21, 6, 10, 15, 21, 6, 10, 15, 21, 6, 10, 15, 21]

/-- `as_u32_le`: four bytes to a little-endian 32-bit word (byte 0 least significant). -/
def as_u32_le (b0 b1 b2 b3 : Nat) : Nat :=
  b0 + b1 * 2 ^ 8 + b2 * 2 ^ 16 + b3 * 2 ^ 24

/-- `u32::to_be` on the little-endian targets the crate's tests run on: a 32-bit byte swap. -/
def bswap32 (x : Nat) : Nat :=
  (x % 256) * 2 ^ 24 + (x / 2 ^ 8 % 256) * 2 ^ 16 + (x / 2 ^ 16 % 256) * 2 ^ 8 +
    x / 2 ^ 24 % 256

/-- `u32::rotate_left` for `x < 2 ^ 32`. -/
def rotl32 (x s : Nat) : Nat :=
  ((x <<< s) ||| (x >>> (32 - s))) % 2 ^ 32

/-- One iteration of the 64-step loop in `calculate_chunks`: the round function and message
index selection, the wrapping additions, and the register shuffle
`a <- d, d <- c, c <- b, b <- b + rotl(f, S[i])`. -/
def md5_step (m : List Nat) (i : Nat) (st : Nat × Nat × Nat × Nat) : Nat × Nat × Nat × Nat :=
  match st with
  | (a, b, c, d) =>
    let fg : Nat × Nat :=
      if i < 16 then ((b &&& c) ||| ((0xffffffff ^^^ b) &&& d), i)
      else if i < 32 then ((d &&& b) ||| ((0xffffffff ^^^ d) &&& c), (5 * i + 1) % 16)
      else if i < 48 then (b ^^^ c ^^^ d, (3 * i + 5) % 16)
      else (c ^^^ (b ||| (0xffffffff ^^^ d)), (7 * i) % 16)
    let f := (fg.1 + a + m.getD fg.2 0 + PRECOMPUTED_TABLE.getD i 0) % 2 ^ 32
    (d, (b + rotl32 f (SHIFT_TABLE.getD i 0)) % 2 ^ 32, b, c)

/-- Generic fuelled rendering of a `for i in ...` loop: `k` iterations of `f` starting at
index `i`.  Kept generic in `f` so its defining equations never force the kernel to
unfold the large concrete step bodies. -/
def loop_n {T : Type} (f : Nat → T → T) (i k : Nat) (st : T) : T :=
  Nat.rec (motive := fun _ => Nat → T → T) (fun _ st => st)
    (fun _ ih i st => ih (i + 1) (f i st)) k i st

/-- Generic fuelled rendering of the 64-byte-block loops: `k` iterations, each consuming
the first 64 bytes of the remaining buffer. -/
def loop_chunks {T : Type} (f : List Nat → T → T) (k : Nat) (buffer : List Nat)
    (st : T) : T :=
  Nat.rec (motive := fun _ => List Nat → T → T) (fun _ st => st)
    (fun _ ih buffer st => ih (buffer.drop 64) (f (buffer.take 64) st)) k buffer st

/-- As `loop_chunks`, but also returning the remaining (undrained) buffer. -/
def loop_drain {T : Type} (f : List Nat → T → T) (k : Nat) (buffer : List Nat)
    (st : T) : List Nat × T :=
  Nat.rec (motive := fun _ => List Nat → T → List Nat × T) (fun buffer st => (buffer, st))
    (fun _ ih buffer st => ih (buffer.drop 64) (f (buffer.take 64) st)) k buffer st

/-- Runs `k` consecutive steps of the 64-step loop starting at step index `i`. -/
def steps_go (m : List Nat) (i k : Nat) (st : Nat × Nat × Nat × Nat) :
    Nat × Nat × Nat × Nat :=
  loop_n (md5_step m) i k st

/-- The 16 message words parsed from one 64-byte chunk, mirroring the sixteen explicit
`as_u32_le(&chunk[4k..4k+4])` slices in the source. -/
def words16 (chunk : List Nat) : List Nat :=
  [as_u32_le (chunk.getD 0 0) (chunk.getD 1 0) (chunk.getD 2 0) (chunk.getD 3 0),
   as_u32_le (chunk.getD 4 0) (chunk.getD 5 0) (chunk.getD 6 0) (chunk.getD 7 0),
   as_u32_le (chunk.getD 8 0) (chunk.getD 9 0) (chunk.getD 10 0) (chunk.getD 11 0),
   as_u32_le (chunk.getD 12 0) (chunk.getD 13 0) (chunk.getD 14 0) (chunk.getD 15 0),
   as_u32_le (chunk.getD 16 0) (chunk.getD 17 0) (chunk.getD 18 0) (chunk.getD 19 0),
   as_u32_le (chunk.getD 20 0) (chunk.getD 21 0) (chunk.getD 22 0) (chunk.getD 23 0),
   as_u32_le (chunk.getD 24 0) (chunk.getD 25 0) (chunk.getD 26 0) (chunk.getD 27 0),
   as_u32_le (chunk.getD 28 0) (chunk.getD 29 0) (chunk.getD 30 0) (chunk.getD 31 0),
   as_u32_le (chunk.getD 32 0) (chunk.getD 33 0) (chunk.getD 34 0) (chunk.getD 35 0),
   as_u32_le (chunk.getD 36 0) (chunk.getD 37 0) (chunk.getD 38 0) (chunk.getD 39 0),
   as_u32_le (chunk.getD 40 0) (chunk.getD 41 0) (chunk.getD 42 0) (chunk.getD 43 0),
   as_u32_le (chunk.getD 44 0) (chunk.getD 45 0) (chunk.getD 46 0) (chunk.getD 47 0),
   as_u32_le (chunk.getD 48 0) (chunk.getD 49 0) (chunk.getD 50 0) (chunk.getD 51 0),
   as_u32_le (chunk.getD 52 0) (chunk.getD 53 0) (chunk.getD 54 0) (chunk.getD 55 0),
   as_u32_le (chunk.getD 56 0) (chunk.getD 57 0) (chunk.getD 58 0) (chunk.getD 59 0),
   as_u32_le (chunk.getD 60 0) (chunk.getD 61 0) (chunk.getD 62 0) (chunk.getD 63 0)]

/-- One 64-byte block of the outer loop of `calculate_chunks`: parse the words, run the 64
steps, and add the working registers back into the accumulator mod `2 ^ 32`. -/
def md5_compress_block (chunk : List Nat) (st : Nat × Nat × Nat × Nat) :
    Nat × Nat × Nat × Nat :=
  match st, steps_go (words16 chunk) 0 64 st with
  | (a0, b0, c0, d0), (a, b, c, d) =>
    ((a0 + a) % 2 ^ 32, (b0 + b) % 2 ^ 32, (c0 + c) % 2 ^ 32, (d0 + d) % 2 ^ 32)

/-- `k` iterations of the outer block loop of `calculate_chunks`. -/
def chunks_go (k : Nat) (buffer : List Nat) (st : Nat × Nat × Nat × Nat) :
    Nat × Nat × Nat × Nat :=
  loop_chunks md5_compress_block k buffer st

/-- The final packing in `calculate_chunks`: each accumulator word is byte-swapped
(`to_be`) and composed into a single 128-bit value with `a` most significant. -/
def pack_u128 (st : Nat × Nat × Nat × Nat) : Nat :=
  match st with
  | (a0, b0, c0, d0) =>
    bswap32 a0 * 2 ^ 96 + bswap32 b0 * 2 ^ 64 + bswap32 c0 * 2 ^ 32 + bswap32 d0

/-- `calculate_chunks`.  The Rust loop `for n in (0..buffer.len()).step_by(64)` slices
`buffer[n..n+64]`, which panics when the buffer length is not a multiple of 64; the panic
is modelled as `none`.  Every call site passes a 64-byte-aligned buffer. -/
def calculate_chunks (buffer : List Nat) (a0 b0 c0 d0 : Nat) : Option Nat :=
  if buffer.length % 64 = 0 then
    some (pack_u128 (chunks_go (buffer.length / 64) buffer (a0, b0, c0, d0)))
  else none

/-- `u64_to_vector_u8_be`: despite its name, the little-endian 8-byte encoding of a
64-bit value (byte 0 least significant). -/
def u64_to_vector_u8_be (value : Nat) : List Nat :=
  [value % 256, value / 2 ^ 8 % 256, value / 2 ^ 16 % 256, value / 2 ^ 24 % 256,
   value / 2 ^ 32 % 256, value / 2 ^ 40 % 256, value / 2 ^ 48 % 256, value / 2 ^ 56 % 256]

/-- `preprocess`.  `n_bytes_to_push` has type `usize` in the source, so
`56 - (preprocessed.len() % 64)` underflows whenever `len % 64 > 56` (the `<= 0` guard
only ever fires at exactly 0, i.e. `len % 64 == 56`): the program panics there (debug
overflow check, or the `vec![0; 2^64 - k]` allocation in release).  The panic is modelled
as `none`. -/
def preprocess (input : List Nat) (original_length_in_bits : Nat) : Option (List Nat) :=
  if 56 < input.length % 64 then none
  else
    let n_bytes_to_push := if 56 - input.length % 64 = 0 then 64 else 56 - input.length % 64
    some (input ++ 0x80 :: (List.replicate (n_bytes_to_push - 1) 0 ++
      u64_to_vector_u8_be original_length_in_bits))

/-- The `Md5` struct: accumulator words, unprocessed-byte buffer, and the `u64` running
total `length` of bytes consumed (kept reduced `% 2 ^ 64`, as the `u64` field is). -/
structure Md5 where
  buffer : List Nat
  length : Nat
  a0 : Nat
  b0 : Nat
  c0 : Nat
  d0 : Nat
deriving DecidableEq

/-- `Md5::new()`. -/
def Md5.new : Md5 :=
  { buffer := [], length := 0, a0 := 0x67452301, b0 := 0xEFCDAB89, c0 := 0x98BADCFE,
    d0 := 0x10325476 }

/-- The `while buffer.len() >= 64` drain loop of `consume`, run `k` times: each iteration
feeds the first 64 buffered bytes to `calculate_chunks` and recovers the four accumulator
words from the packed `u128` by shift, mask and `to_be` (byte swap).  The `getD 0`
renders the `unwrap`s; the slice is always exactly 64 bytes here so the inner
`calculate_chunks` never fails. -/
def drain_step (chunk : List Nat) (st : Nat × Nat × Nat × Nat) : Nat × Nat × Nat × Nat :=
  let digested := (calculate_chunks chunk st.1 st.2.1 st.2.2.1 st.2.2.2).getD 0
  (bswap32 ((digested >>> 96) &&& 0xffffffff),
   bswap32 ((digested >>> 64) &&& 0xffffffff),
   bswap32 ((digested >>> 32) &&& 0xffffffff),
   bswap32 ((digested >>> 0) &&& 0xffffffff))

def drain_go (k : Nat) (buffer : List Nat) (a0 b0 c0 d0 : Nat) :
    List Nat × (Nat × Nat × Nat × Nat) :=
  loop_drain drain_step k buffer (a0, b0, c0, d0)

/-- `Md5::consume`: concatenate the buffered bytes with `data`, drain every full 64-byte
block through the compression core, and return the successor state with the counter
increased by `data.len()` (wrapping `u64` addition). -/
def consume (s : Md5) (data : List Nat) : Md5 :=
  let buffer := s.buffer ++ data
  let drained := drain_go (buffer.length / 64) buffer s.a0 s.b0 s.c0 s.d0
  { buffer := drained.1, length := (s.length + data.length) % 2 ^ 64,
    a0 := drained.2.1, b0 := drained.2.2.1, c0 := drained.2.2.2.1, d0 := drained.2.2.2.2 }

/-- `Md5::digest`: preprocess the remaining buffer with the total bit length
(`self.length * 8`, wrapping `u64` multiplication) and run it through the compression
core from the current accumulator. -/
def digest (s : Md5) : Option Nat :=
  (preprocess s.buffer (s.length * 8 % 2 ^ 64)).bind fun preprocessed =>
    calculate_chunks preprocessed s.a0 s.b0 s.c0 s.d0

/-- `Md5::calculate`: one-shot hash of a complete input. -/
def calculate (input : List Nat) : Option Nat :=
  (preprocess input (input.length * 8 % 2 ^ 64)).bind fun preprocessed =>
    calculate_chunks preprocessed 0x67452301 0xEFCDAB89 0x98BADCFE 0x10325476

/-- The four accumulator words of a state as one tuple (proof-layer shorthand). -/
def accOf (s : Md5) : Nat × Nat × Nat × Nat :=
  (s.a0, s.b0, s.c0, s.d0)

/-!  Spec-side rendering of the compression core, following the words of spec §4.1/§4.3,
to be compared with `calculate_chunks` (which is translated from the source).  -/

/-- Spec §4.1: `bytes_to_word_le(4 bytes) -> 32-bit word`, byte 0 least significant. -/
def bytes_to_word_le (bs : List Nat) : Nat :=
  bs.getD 0 0 + bs.getD 1 0 * 2 ^ 8 + bs.getD 2 0 * 2 ^ 16 + bs.getD 3 0 * 2 ^ 24

/-- Spec §4.3: the four bytes of a 32-bit word, least significant first. -/
def word_bytes_le (w : Nat) : List Nat :=
  [w % 256, w / 2 ^ 8 % 256, w / 2 ^ 16 % 256, w / 2 ^ 24 % 256]

/-- Spec §4.3 output formatting: one 32-bit word byte-swapped (its little-endian bytes
reassembled most-significant-first). -/
def spec_byte_swap (w : Nat) : Nat :=
  bytes_to_word_le (word_bytes_le w).reverse

/-- Spec §4.3 item 1: parse 16 little-endian 32-bit words from one 64-byte block. -/
def spec_words (block : List Nat) : List Nat :=
  (List.range 16).map fun j => bytes_to_word_le ((block.drop (4 * j)).take 4)

/-- Spec §4.3 item 3: step `i` of the four rounds of sixteen steps. -/
def spec_step (m : List Nat) (st : Nat × Nat × Nat × Nat) (i : Nat) : Nat × Nat × Nat × Nat :=
  match st with
  | (a, b, c, d) =>
    let f :=
      if i < 16 then (b &&& c) ||| ((0xffffffff ^^^ b) &&& d)
      else if i < 32 then (d &&& b) ||| ((0xffffffff ^^^ d) &&& c)
      else if i < 48 then b ^^^ c ^^^ d
      else c ^^^ (b ||| (0xffffffff ^^^ d))
    let g :=
      if i < 16 then i
      else if i < 32 then (5 * i + 1) % 16
      else if i < 48 then (3 * i + 5) % 16
      else 7 * i % 16
    let fsum := (f + a + m.getD g 0 + PRECOMPUTED_TABLE.getD i 0) % 2 ^ 32
    (d, (b + rotl32 fsum (SHIFT_TABLE.getD i 0)) % 2 ^ 32, b, c)

/-- Spec §4.3 items 1-4: one block — parse words, run the 64 steps from the current
accumulator, add the registers back mod `2 ^ 32`. -/
def spec_block (block : List Nat) (st : Nat × Nat × Nat × Nat) : Nat × Nat × Nat × Nat :=
  match st, (List.range 64).foldl (spec_step (spec_words block)) st with
  | (a0, b0, c0, d0), (a, b, c, d) =>
    ((a0 + a) % 2 ^ 32, (b0 + b) % 2 ^ 32, (c0 + c) % 2 ^ 32, (d0 + d) % 2 ^ 32)

/-- Spec §4.3: `compress` — the block loop over every consecutive 64-byte block, the
accumulator carried forward. -/
def spec_compress (buffer : List Nat) (st : Nat × Nat × Nat × Nat) : Nat × Nat × Nat × Nat :=
  ((List.range (buffer.length / 64)).map fun n => (buffer.drop (64 * n)).take 64).foldl
    (fun acc block => spec_block block acc) st

/-- Spec §4.3 output formatting: the four final words byte-swapped and packed into one
128-bit value with `a` most significant. -/
def spec_output (buffer : List Nat) (a0 b0 c0 d0 : Nat) : Nat :=
  match spec_compress buffer (a0, b0, c0, d0) with
  | (a, b, c, d) =>
    spec_byte_swap a * 2 ^ 96 + spec_byte_swap b * 2 ^ 64 + spec_byte_swap c * 2 ^ 32 +
      spec_byte_swap d

/-! Helper lemmas.  First, the defining equations of the generic loops (stated with the
step function abstract, which keeps every kernel check small), then their instances. -/

theorem loop_n_zero {T : Type} (f : Nat → T → T) (i : Nat) (st : T) :
    loop_n f i 0 st = st := rfl

theorem loop_n_succ {T : Type} (f : Nat → T → T) (i k : Nat) (st : T) :
    loop_n f i (k + 1) st = loop_n f (i + 1) k (f i st) := rfl

theorem loop_chunks_zero {T : Type} (f : List Nat → T → T) (buffer : List Nat) (st : T) :
    loop_chunks f 0 buffer st = st := rfl

theorem loop_chunks_succ {T : Type} (f : List Nat → T → T) (k : Nat) (buffer : List Nat)
    (st : T) :
    loop_chunks f (k + 1) buffer st =
      loop_chunks f k (buffer.drop 64) (f (buffer.take 64) st) := rfl

theorem loop_drain_zero {T : Type} (f : List Nat → T → T) (buffer : List Nat) (st : T) :
    loop_drain f 0 buffer st = (buffer, st) := rfl

theorem loop_drain_succ {T : Type} (f : List Nat → T → T) (k : Nat) (buffer : List Nat)
    (st : T) :
    loop_drain f (k + 1) buffer st =
      loop_drain f k (buffer.drop 64) (f (buffer.take 64) st) := rfl

theorem steps_go_zero (m : List Nat) (i : Nat) (st : Nat × Nat × Nat × Nat) :
    steps_go m i 0 st = st :=
  loop_n_zero (md5_step m) i st

theorem steps_go_succ (m : List Nat) (i k : Nat) (st : Nat × Nat × Nat × Nat) :
    steps_go m i (k + 1) st = steps_go m (i + 1) k (md5_step m i st) :=
  loop_n_succ (md5_step m) i k st

theorem chunks_go_zero (buffer : List Nat) (st : Nat × Nat × Nat × Nat) :
    chunks_go 0 buffer st = st :=
  loop_chunks_zero md5_compress_block buffer st

theorem chunks_go_succ (k : Nat) (buffer : List Nat) (st : Nat × Nat × Nat × Nat) :
    chunks_go (k + 1) buffer st =
      chunks_go k (buffer.drop 64) (md5_compress_block (buffer.take 64) st) :=
  loop_chunks_succ md5_compress_block k buffer st

theorem drain_go_zero (buffer : List Nat) (a0 b0 c0 d0 : Nat) :
    drain_go 0 buffer a0 b0 c0 d0 = (buffer, (a0, b0, c0, d0)) :=
  loop_drain_zero drain_step buffer (a0, b0, c0, d0)

theorem drain_go_step (k : Nat) (buffer : List Nat) (a0 b0 c0 d0 : Nat) :
    drain_go (k + 1) buffer a0 b0 c0 d0 =
      loop_drain drain_step k (buffer.drop 64) (drain_step (buffer.take 64) (a0, b0, c0, d0)) :=
  loop_drain_succ drain_step k buffer (a0, b0, c0, d0)

theorem bswap32_lt (x : Nat) : bswap32 x < 2 ^ 32 := by
  unfold bswap32
  omega

theorem bswap32_bytes (c0 c1 c2 c3 : Nat) (h0 : c0 < 256) (h1 : c1 < 256) (h2 : c2 < 256)
    (h3 : c3 < 256) :
    bswap32 (c0 * 2 ^ 24 + c1 * 2 ^ 16 + c2 * 2 ^ 8 + c3) =
      c3 * 2 ^ 24 + c2 * 2 ^ 16 + c1 * 2 ^ 8 + c0 := by
  unfold bswap32
  have h8 : (2 : Nat) ^ 8 = 256 := by norm_num
  have h16 : (2 : Nat) ^ 16 = 65536 := by norm_num
  have h24 : (2 : Nat) ^ 24 = 16777216 := by norm_num
  rw [h8, h16, h24]
  omega

theorem bswap32_bswap32 (x : Nat) (h : x < 2 ^ 32) : bswap32 (bswap32 x) = x := by
  have hx : bswap32 x =
      (x % 256) * 2 ^ 24 + (x / 2 ^ 8 % 256) * 2 ^ 16 + (x / 2 ^ 16 % 256) * 2 ^ 8 +
        x / 2 ^ 24 % 256 := rfl
  rw [hx, bswap32_bytes _ _ _ _ (Nat.mod_lt _ (by norm_num)) (Nat.mod_lt _ (by norm_num))
    (Nat.mod_lt _ (by norm_num)) (Nat.mod_lt _ (by norm_num))]
  clear hx
  have h8 : (2 : Nat) ^ 8 = 256 := by norm_num
  have h16 : (2 : Nat) ^ 16 = 65536 := by norm_num
  have h24 : (2 : Nat) ^ 24 = 16777216 := by norm_num
  rw [h8, h16, h24]
  omega

theorem land_mask32 (n : Nat) : n &&& 0xffffffff = n % 2 ^ 32 := by
  have h : (0xffffffff : Nat) = 2 ^ 32 - 1 := by norm_num
  rw [h, Nat.and_pow_two_sub_one_eq_mod]

theorem take_append_of_le {α : Type} {n : Nat} {l₁ l₂ : List α} (h : n ≤ l₁.length) :
    (l₁ ++ l₂).take n = l₁.take n := by
  induction l₁ generalizing n with
  | nil => simp_all
  | cons x xs ih =>
    cases n with
    | zero => simp
    | succ n => simp_all

theorem drop_append_of_le {α : Type} {n : Nat} {l₁ l₂ : List α} (h : n ≤ l₁.length) :
    (l₁ ++ l₂).drop n = l₁.drop n ++ l₂ := by
  induction l₁ generalizing n with
  | nil => simp_all
  | cons x xs ih =>
    cases n with
    | zero => simp
    | succ n => simp_all

theorem getD_drop (l : List Nat) (k j : Nat) : (l.drop k).getD j 0 = l.getD (k + j) 0 := by
  induction l generalizing k with
  | nil => simp [List.getD]
  | cons x xs ih =>
    cases k with
    | zero => simp
    | succ k =>
      simp only [List.drop_succ_cons, Nat.succ_add, List.getD_cons_succ]
      exact ih k

theorem getD_take (l : List Nat) {n : Nat} (j : Nat) (h : j < n) :
    (l.take n).getD j 0 = l.getD j 0 := by
  simp [List.getD_eq_getElem?_getD, List.getElem?_take_of_lt h]

theorem unpack_pack (a b c d : Nat) (ha : a < 2 ^ 32) (hb : b < 2 ^ 32) (hc : c < 2 ^ 32)
    (hd : d < 2 ^ 32) :
    bswap32 ((pack_u128 (a, b, c, d) >>> 96) &&& 0xffffffff) = a ∧
    bswap32 ((pack_u128 (a, b, c, d) >>> 64) &&& 0xffffffff) = b ∧
    bswap32 ((pack_u128 (a, b, c, d) >>> 32) &&& 0xffffffff) = c ∧
    bswap32 ((pack_u128 (a, b, c, d) >>> 0) &&& 0xffffffff) = d := by
  have hA := bswap32_lt a
  have hB := bswap32_lt b
  have hC := bswap32_lt c
  have hD := bswap32_lt d
  have hp : pack_u128 (a, b, c, d) =
      bswap32 a * 2 ^ 96 + bswap32 b * 2 ^ 64 + bswap32 c * 2 ^ 32 + bswap32 d := rfl
  have key : ∀ A B C D : Nat, A < 2 ^ 32 → B < 2 ^ 32 → C < 2 ^ 32 → D < 2 ^ 32 →
      (A * 2 ^ 96 + B * 2 ^ 64 + C * 2 ^ 32 + D) / 2 ^ 96 % 2 ^ 32 = A ∧
      (A * 2 ^ 96 + B * 2 ^ 64 + C * 2 ^ 32 + D) / 2 ^ 64 % 2 ^ 32 = B ∧
      (A * 2 ^ 96 + B * 2 ^ 64 + C * 2 ^ 32 + D) / 2 ^ 32 % 2 ^ 32 = C ∧
      (A * 2 ^ 96 + B * 2 ^ 64 + C * 2 ^ 32 + D) / 2 ^ 0 % 2 ^ 32 = D := by
    intro A B C D h1 h2 h3 h4
    norm_num
    omega
  have k2 := key _ _ _ _ hA hB hC hD
  rw [hp, land_mask32, land_mask32, land_mask32, land_mask32, Nat.shiftRight_eq_div_pow,
    Nat.shiftRight_eq_div_pow, Nat.shiftRight_eq_div_pow, Nat.shiftRight_eq_div_pow,
    k2.1, k2.2.1, k2.2.2.1, k2.2.2.2, bswap32_bswap32 a ha, bswap32_bswap32 b hb,
    bswap32_bswap32 c hc, bswap32_bswap32 d hd]
  exact ⟨rfl, rfl, rfl, rfl⟩

theorem md5_compress_block_lt (chunk : List Nat) (st : Nat × Nat × Nat × Nat) :
    (md5_compress_block chunk st).1 < 2 ^ 32 ∧ (md5_compress_block chunk st).2.1 < 2 ^ 32 ∧
    (md5_compress_block chunk st).2.2.1 < 2 ^ 32 ∧
    (md5_compress_block chunk st).2.2.2 < 2 ^ 32 := by
  obtain ⟨a0, b0, c0, d0⟩ := st
  unfold md5_compress_block
  rcases h : steps_go (words16 chunk) 0 64 (a0, b0, c0, d0) with ⟨a, b, c, d⟩
  simp only [h]
  refine ⟨?_, ?_, ?_, ?_⟩ <;> exact Nat.mod_lt _ (by norm_num)

theorem calculate_chunks_take64 (buffer : List Nat) (a b c d : Nat) (h : 64 ≤ buffer.length) :
    calculate_chunks (buffer.take 64) a b c d =
      some (pack_u128 (md5_compress_block (buffer.take 64) (a, b, c, d))) := by
  have hlen : (buffer.take 64).length = 64 := by
    rw [List.length_take]
    omega
  have h1 : chunks_go 1 (buffer.take 64) (a, b, c, d) =
      md5_compress_block ((buffer.take 64).take 64) (a, b, c, d) :=
    (chunks_go_succ 0 (buffer.take 64) (a, b, c, d)).trans
      (chunks_go_zero ((buffer.take 64).drop 64) _)
  unfold calculate_chunks
  rw [hlen, if_pos (by norm_num : (64 : Nat) % 64 = 0),
    (by norm_num : (64 : Nat) / 64 = 1), h1, List.take_take, Nat.min_self]

theorem drain_go_succ (k : Nat) (buffer : List Nat) (a b c d : Nat)
    (h : 64 ≤ buffer.length) :
    drain_go (k + 1) buffer a b c d =
      drain_go k (buffer.drop 64) (md5_compress_block (buffer.take 64) (a, b, c, d)).1
        (md5_compress_block (buffer.take 64) (a, b, c, d)).2.1
        (md5_compress_block (buffer.take 64) (a, b, c, d)).2.2.1
        (md5_compress_block (buffer.take 64) (a, b, c, d)).2.2.2 := by
  have hcc := calculate_chunks_take64 buffer a b c d h
  rcases hblk : md5_compress_block (buffer.take 64) (a, b, c, d) with ⟨a', b', c', d'⟩
  have hlt := md5_compress_block_lt (buffer.take 64) (a, b, c, d)
  rw [hblk] at hlt hcc
  have hu := unpack_pack a' b' c' d' hlt.1 hlt.2.1 hlt.2.2.1 hlt.2.2.2
  have hstep : drain_step (buffer.take 64) (a, b, c, d) = (a', b', c', d') := by
    unfold drain_step
    simp only [hcc, Option.getD_some, hu.1, hu.2.1, hu.2.2.1, hu.2.2.2]
  rw [drain_go_step, hstep]
  rfl

theorem drain_eq_chunks (k : Nat) : ∀ (buffer : List Nat) (a b c d : Nat),
    64 * k ≤ buffer.length →
    drain_go k buffer a b c d = (buffer.drop (64 * k), chunks_go k buffer (a, b, c, d)) := by
  induction k with
  | zero => intro buffer a b c d _; rfl
  | succ k ih =>
    intro buffer a b c d h
    have h64 : 64 ≤ buffer.length := by omega
    have heta : ∀ p : Nat × Nat × Nat × Nat, (p.1, p.2.1, p.2.2.1, p.2.2.2) = p :=
      fun p => rfl
    rw [drain_go_succ k buffer a b c d h64,
      ih (buffer.drop 64) (md5_compress_block (buffer.take 64) (a, b, c, d)).1
        (md5_compress_block (buffer.take 64) (a, b, c, d)).2.1
        (md5_compress_block (buffer.take 64) (a, b, c, d)).2.2.1
        (md5_compress_block (buffer.take 64) (a, b, c, d)).2.2.2
        (by rw [List.length_drop]; omega),
      heta]
    have hd : (buffer.drop 64).drop (64 * k) = buffer.drop (64 * (k + 1)) := by
      rw [List.drop_drop]
      congr 1
      ring
    rw [hd, chunks_go_succ]

theorem chunks_go_append (k1 : Nat) : ∀ (b1 b2 : List Nat) (st : Nat × Nat × Nat × Nat),
    b1.length = 64 * k1 →
    ∀ k2, chunks_go (k1 + k2) (b1 ++ b2) st = chunks_go k2 b2 (chunks_go k1 b1 st) := by
  induction k1 with
  | zero =>
    intro b1 b2 st h k2
    have hb : b1 = [] := List.eq_nil_of_length_eq_zero (by omega)
    subst hb
    rw [Nat.zero_add, List.nil_append, chunks_go_zero]
  | succ k1 ih =>
    intro b1 b2 st h k2
    have h64 : 64 ≤ b1.length := by omega
    have hk : k1 + 1 + k2 = (k1 + k2) + 1 := by omega
    rw [hk, chunks_go_succ, take_append_of_le h64, drop_append_of_le h64,
      ih (b1.drop 64) b2 _ (by rw [List.length_drop]; omega) k2, chunks_go_succ]

theorem chunks_split (buf ext : List Nat) (st : Nat × Nat × Nat × Nat) :
    chunks_go ((buf ++ ext).length / 64) (buf ++ ext) st =
      chunks_go ((buf.length % 64 + ext.length) / 64)
        (buf.drop (64 * (buf.length / 64)) ++ ext)
        (chunks_go (buf.length / 64) buf st) := by
  have hle : 64 * (buf.length / 64) ≤ buf.length := by omega
  have hFlen : (buf.take (64 * (buf.length / 64))).length = 64 * (buf.length / 64) := by
    rw [List.length_take]
    omega
  have hA : chunks_go (buf.length / 64) buf st =
      chunks_go (buf.length / 64) (buf.take (64 * (buf.length / 64))) st := by
    have h0 := chunks_go_append (buf.length / 64) (buf.take (64 * (buf.length / 64)))
      (buf.drop (64 * (buf.length / 64))) st hFlen 0
    rw [Nat.add_zero, List.take_append_drop, chunks_go_zero] at h0
    exact h0
  have hq2 : (buf ++ ext).length / 64 =
      buf.length / 64 + (buf.length % 64 + ext.length) / 64 := by
    rw [List.length_append]
    omega
  have hbig : buf ++ ext =
      buf.take (64 * (buf.length / 64)) ++ (buf.drop (64 * (buf.length / 64)) ++ ext) := by
    rw [← List.append_assoc, List.take_append_drop]
  rw [hq2]
  conv_lhs => rw [hbig]
  rw [chunks_go_append (buf.length / 64) _ _ st hFlen _, ← hA]

theorem consume_def (s : Md5) (data : List Nat) :
    consume s data =
      { buffer := (s.buffer ++ data).drop (64 * ((s.buffer ++ data).length / 64)),
        length := (s.length + data.length) % 2 ^ 64,
        a0 := (chunks_go ((s.buffer ++ data).length / 64) (s.buffer ++ data) (accOf s)).1,
        b0 := (chunks_go ((s.buffer ++ data).length / 64) (s.buffer ++ data) (accOf s)).2.1,
        c0 := (chunks_go ((s.buffer ++ data).length / 64) (s.buffer ++ data)
          (accOf s)).2.2.1,
        d0 := (chunks_go ((s.buffer ++ data).length / 64) (s.buffer ++ data)
          (accOf s)).2.2.2 } := by
  simp only [consume]
  rw [drain_eq_chunks ((s.buffer ++ data).length / 64) (s.buffer ++ data)
    s.a0 s.b0 s.c0 s.d0 (by omega)]
  rfl

theorem consume_buffer (s : Md5) (data : List Nat) :
    (consume s data).buffer =
      (s.buffer ++ data).drop (64 * ((s.buffer ++ data).length / 64)) := by
  rw [consume_def]

theorem consume_length (s : Md5) (data : List Nat) :
    (consume s data).length = (s.length + data.length) % 2 ^ 64 := by
  rw [consume_def]

theorem consume_acc (s : Md5) (data : List Nat) :
    accOf (consume s data) =
      chunks_go ((s.buffer ++ data).length / 64) (s.buffer ++ data) (accOf s) := by
  rw [consume_def]
  rfl

theorem md5_ext (s t : Md5) (h1 : s.buffer = t.buffer) (h2 : s.length = t.length)
    (h3 : accOf s = accOf t) : s = t := by
  cases s
  cases t
  simp only [accOf, Prod.mk.injEq] at h3
  simp_all

theorem drop_blocks_split (B y : List Nat) :
    (B.drop (64 * (B.length / 64)) ++ y).drop
        (64 * ((B.drop (64 * (B.length / 64)) ++ y).length / 64)) =
      (B ++ y).drop (64 * ((B ++ y).length / 64)) := by
  have hlen : (B.drop (64 * (B.length / 64))).length = B.length % 64 := by
    rw [List.length_drop]
    omega
  have hq : (B ++ y).length / 64 = B.length / 64 + (B.length % 64 + y.length) / 64 := by
    rw [List.length_append]
    omega
  rw [List.length_append, hlen, hq, Nat.mul_add, ← List.drop_drop,
    drop_append_of_le (by omega : 64 * (B.length / 64) ≤ B.length)]

theorem consume_consume (s : Md5) (x y : List Nat) :
    consume (consume s x) y = consume s (x ++ y) := by
  apply md5_ext
  · rw [consume_buffer, consume_buffer, consume_buffer, ← List.append_assoc]
    exact drop_blocks_split (s.buffer ++ x) y
  · rw [consume_length, consume_length, consume_length, List.length_append,
      Nat.mod_add_mod, Nat.add_assoc]
  · rw [consume_acc, consume_acc, consume_acc, consume_buffer, ← List.append_assoc]
    have hlen : ((s.buffer ++ x).drop (64 * ((s.buffer ++ x).length / 64))).length =
        (s.buffer ++ x).length % 64 := by
      rw [List.length_drop]
      omega
    have e1 : ((s.buffer ++ x).drop (64 * ((s.buffer ++ x).length / 64)) ++ y).length / 64 =
        ((s.buffer ++ x).length % 64 + y.length) / 64 := by
      rw [List.length_append, hlen]
    rw [e1, ← chunks_split]

theorem preprocess_none (x : List Nat) (L : Nat) (h : 56 < x.length % 64) :
    preprocess x L = none := by
  unfold preprocess
  rw [if_pos h]

theorem preprocess_some (x : List Nat) (L : Nat) (h : x.length % 64 ≤ 56) :
    preprocess x L = some (x ++ 0x80 ::
      (List.replicate ((if 56 - x.length % 64 = 0 then 64 else 56 - x.length % 64) - 1) 0 ++
        u64_to_vector_u8_be L)) := by
  unfold preprocess
  rw [if_neg (by omega)]

theorem u64_bytes_length (L : Nat) : (u64_to_vector_u8_be L).length = 8 := rfl

theorem pad_len_mod (x : List Nat) (L : Nat) (h : x.length % 64 ≤ 56) :
    (x ++ 0x80 :: (List.replicate
        ((if 56 - x.length % 64 = 0 then 64 else 56 - x.length % 64) - 1) 0 ++
      u64_to_vector_u8_be L)).length % 64 = 0 := by
  by_cases hz : 56 - x.length % 64 = 0
  · rw [if_pos hz]
    simp only [List.length_append, List.length_cons, List.length_replicate, u64_bytes_length]
    omega
  · rw [if_neg hz]
    simp only [List.length_append, List.length_cons, List.length_replicate, u64_bytes_length]
    omega

theorem digest_consume_new (input : List Nat) :
    digest (consume Md5.new input) = calculate input := by
  have hnb : Md5.new.buffer = [] := rfl
  have hbuf : (consume Md5.new input).buffer = input.drop (64 * (input.length / 64)) := by
    rw [consume_buffer, hnb, List.nil_append]
  have hrlen : (input.drop (64 * (input.length / 64))).length = input.length % 64 := by
    rw [List.length_drop]
    omega
  have hlen : (consume Md5.new input).length = input.length % 2 ^ 64 := by
    rw [consume_length]
    rw [show Md5.new.length = 0 from rfl, Nat.zero_add]
  have hacc : accOf (consume Md5.new input) =
      chunks_go (input.length / 64) input
        (0x67452301, 0xEFCDAB89, 0x98BADCFE, 0x10325476) := by
    rw [consume_acc, hnb, List.nil_append]
    rfl
  have hbits : (consume Md5.new input).length * 8 % 2 ^ 64 = input.length * 8 % 2 ^ 64 := by
    rw [hlen]
    conv_rhs => rw [Nat.mul_mod]
    rw [Nat.mod_eq_of_lt (show (8 : Nat) < 2 ^ 64 by norm_num)]
  have ha : (consume Md5.new input).a0 =
      (chunks_go (input.length / 64) input
        (0x67452301, 0xEFCDAB89, 0x98BADCFE, 0x10325476)).1 := congrArg (fun t => t.1) hacc
  have hb : (consume Md5.new input).b0 =
      (chunks_go (input.length / 64) input
        (0x67452301, 0xEFCDAB89, 0x98BADCFE, 0x10325476)).2.1 :=
    congrArg (fun t => t.2.1) hacc
  have hc : (consume Md5.new input).c0 =
      (chunks_go (input.length / 64) input
        (0x67452301, 0xEFCDAB89, 0x98BADCFE, 0x10325476)).2.2.1 :=
    congrArg (fun t => t.2.2.1) hacc
  have hd : (consume Md5.new input).d0 =
      (chunks_go (input.length / 64) input
        (0x67452301, 0xEFCDAB89, 0x98BADCFE, 0x10325476)).2.2.2 :=
    congrArg (fun t => t.2.2.2) hacc
  unfold digest calculate
  rw [hbuf, hbits, ha, hb, hc, hd]
  by_cases hc56 : 56 < input.length % 64
  · rw [preprocess_none input _ hc56,
      preprocess_none _ _ (by rw [hrlen, Nat.mod_mod_of_dvd _ (dvd_refl 64)]; exact hc56)]
    simp only [Option.none_bind]
  · have h56 : input.length % 64 ≤ 56 := by omega
    rw [preprocess_some input _ h56,
      preprocess_some _ _ (by rw [hrlen, Nat.mod_mod_of_dvd _ (dvd_refl 64)]; exact h56),
      hrlen, Nat.mod_mod_of_dvd _ (dvd_refl 64)]
    simp only [Option.some_bind]
    unfold calculate_chunks
    rw [if_pos (pad_len_mod input _ h56)]
    have hpad2 := pad_len_mod (input.drop (64 * (input.length / 64)))
      (input.length * 8 % 2 ^ 64) (by rw [hrlen, Nat.mod_mod_of_dvd _ (dvd_refl 64)]; exact h56)
    rw [hrlen, Nat.mod_mod_of_dvd _ (dvd_refl 64)] at hpad2
    rw [if_pos (by
      rw [List.length_append, hrlen]
      rw [List.length_append] at hpad2
      omega)]
    have heta : ∀ p : Nat × Nat × Nat × Nat, (p.1, p.2.1, p.2.2.1, p.2.2.2) = p :=
      fun p => rfl
    rw [heta]
    have hsplit := chunks_split input
      (0x80 :: (List.replicate
          ((if 56 - input.length % 64 = 0 then 64 else 56 - input.length % 64) - 1) 0 ++
        u64_to_vector_u8_be (input.length * 8 % 2 ^ 64)))
      (0x67452301, 0xEFCDAB89, 0x98BADCFE, 0x10325476)
    rw [hsplit, List.length_append, hrlen]
theorem foldl_consume_cons (cs : List (List Nat)) : ∀ (s : Md5) (c : List Nat),
    List.foldl consume s (c :: cs) = consume s (c ++ cs.flatten) := by
  induction cs with
  | nil =>
    intro s c
    rw [List.foldl_cons, List.foldl_nil, List.flatten_nil, List.append_nil]
  | cons c2 cs ih =>
    intro s c
    rw [List.foldl_cons, ih (consume s c) c2, consume_consume, List.flatten_cons]

/-- C4: `calculate(bytes)` returns the same value as `digest(consume(new(), bytes))` for
every byte sequence: the one-shot path and the streaming path are equivalent (both are
`none` exactly on the inputs where `preprocess` panics). -/
theorem calculate_eq_digest_consume_new (input : List Nat) :
    calculate input = digest (consume Md5.new input) :=
  (digest_consume_new input).symm

/-- C3: splitting one logical message across `consume` calls does not change the digest:
`digest (consume (consume new x) y) = calculate (x ++ y)` for all `x, y`, and more
generally folding `consume` over any list of chunks equals one `calculate` of the
concatenation. -/
theorem streaming_split_invariance :
    (∀ x y : List Nat,
      digest (consume (consume Md5.new x) y) = calculate (x ++ y)) ∧
    ∀ chunks : List (List Nat),
      digest (chunks.foldl consume Md5.new) = calculate chunks.flatten := by
  constructor
  · intro x y
    rw [consume_consume, digest_consume_new]
  · intro chunks
    cases chunks with
    | nil => decide
    | cons c cs =>
      rw [List.flatten_cons, foldl_consume_cons, digest_consume_new]

/-- C7: after any `consume` call on any state, the buffer holds at most 63 bytes: every
full 64-byte block is drained through the compression core before `consume` returns. -/
theorem consume_buffer_le (s : Md5) (data : List Nat) :
    (consume s data).buffer.length ≤ 63 := by
  rw [consume_buffer, List.length_drop]
  omega

/-- C10: consuming the empty byte sequence is the identity on every state the module can
construct (buffer shorter than one block, `u64` length counter). -/
theorem consume_nil (s : Md5) (h1 : s.buffer.length ≤ 63) (h2 : s.length < 2 ^ 64) :
    consume s [] = s := by
  have hq : s.buffer.length / 64 = 0 := Nat.div_eq_of_lt (by omega)
  apply md5_ext
  · rw [consume_buffer, List.append_nil, hq, Nat.mul_zero, List.drop_zero]
  · rw [consume_length, List.length_nil, Nat.add_zero, Nat.mod_eq_of_lt h2]
  · rw [consume_acc, List.append_nil, hq, chunks_go_zero]

theorem consume_nil_witness :
    (Md5.new.buffer.length ≤ 63 ∧ Md5.new.length < 2 ^ 64) ∧ consume Md5.new [] = Md5.new :=
  ⟨⟨by decide, by decide⟩, consume_nil Md5.new (by decide) (by decide)⟩

/-- C9: the total-byte counter update in `consume` and the bit-length computation in
`digest` are wrapping mod-`2 ^ 64` operations: `consume` always returns a state whose
counter is `(length + |data|) mod 2 ^ 64`, and `digest` depends on the counter only
through `length * 8 mod 2 ^ 64`, so overflow silently wraps and is never an error. -/
theorem length_wraps (s : Md5) (data : List Nat) (buf : List Nat) (l1 l2 a b c d : Nat)
    (h : l1 * 8 % 2 ^ 64 = l2 * 8 % 2 ^ 64) :
    (consume s data).length = (s.length + data.length) % 2 ^ 64 ∧
    digest { buffer := buf, length := l1, a0 := a, b0 := b, c0 := c, d0 := d } =
      digest { buffer := buf, length := l2, a0 := a, b0 := b, c0 := c, d0 := d } := by
  refine ⟨consume_length s data, ?_⟩
  unfold digest
  dsimp only
  rw [h]

theorem length_wraps_witness :
    (0 * 8 % 2 ^ 64 = 2 ^ 61 * 8 % 2 ^ 64) ∧
    ((consume Md5.new []).length = (Md5.new.length + ([] : List Nat).length) % 2 ^ 64 ∧
      digest { buffer := [], length := 0, a0 := 1, b0 := 2, c0 := 3, d0 := 4 } =
        digest { buffer := [], length := 2 ^ 61, a0 := 1, b0 := 2, c0 := 3, d0 := 4 }) :=
  ⟨by decide, length_wraps Md5.new [] [] 0 (2 ^ 61) 1 2 3 4 (by decide)⟩

end Md5Core
namespace Md5Core

theorem spec_step_eq (m : List Nat) (st : Nat × Nat × Nat × Nat) (i : Nat) :
    spec_step m st i = md5_step m i st := by
  obtain ⟨a, b, c, d⟩ := st
  unfold spec_step md5_step
  split_ifs <;> rfl

theorem range'_fold (m : List Nat) (k : Nat) : ∀ (i : Nat) (st : Nat × Nat × Nat × Nat),
    (List.range' i k).foldl (spec_step m) st = steps_go m i k st := by
  induction k with
  | zero => intro i st; rw [steps_go_zero]; rfl
  | succ k ih =>
    intro i st
    rw [List.range'_succ, List.foldl_cons, spec_step_eq, ih (i + 1) (md5_step m i st),
      steps_go_succ]

theorem spec_words_entry (block : List Nat) (k : Nat) :
    bytes_to_word_le ((block.drop k).take 4) =
      as_u32_le (block.getD k 0) (block.getD (k + 1) 0) (block.getD (k + 2) 0)
        (block.getD (k + 3) 0) := by
  unfold bytes_to_word_le as_u32_le
  rw [getD_take _ _ (by norm_num), getD_take _ _ (by norm_num), getD_take _ _ (by norm_num),
    getD_take _ _ (by norm_num), getD_drop, getD_drop, getD_drop, getD_drop, Nat.add_zero]

theorem spec_words_eq (block : List Nat) : spec_words block = words16 block := by
  unfold spec_words words16
  have h16 : List.range 16 = [0, 1, 2, 3, 4, 5, 6, 7, 8, 9, 10, 11, 12, 13, 14, 15] := by
    decide
  rw [h16]
  simp only [List.map_cons, List.map_nil, spec_words_entry]

theorem spec_block_eq (block : List Nat) (st : Nat × Nat × Nat × Nat) :
    spec_block block st = md5_compress_block block st := by
  obtain ⟨a0, b0, c0, d0⟩ := st
  unfold spec_block md5_compress_block
  rw [spec_words_eq, List.range_eq_range', range'_fold]

end Md5Core
namespace Md5Core

theorem range_map_fold (q : Nat) : ∀ (buffer : List Nat) (st : Nat × Nat × Nat × Nat),
    ((List.range q).map fun n => (buffer.drop (64 * n)).take 64).foldl
      (fun acc block => spec_block block acc) st = chunks_go q buffer st := by
  induction q with
  | zero =>
    intro buffer st
    rw [List.range_zero, List.map_nil, List.foldl_nil, chunks_go_zero]
  | succ q ih =>
    intro buffer st
    have hcomp : ((fun n => (buffer.drop (64 * n)).take 64) ∘ Nat.succ) =
        fun n => ((buffer.drop 64).drop (64 * n)).take 64 := by
      funext n
      simp only [Function.comp]
      rw [List.drop_drop]
      congr 2
      omega
    rw [List.range_succ_eq_map, List.map_cons, List.map_map, hcomp, List.foldl_cons,
      Nat.mul_zero, List.drop_zero, spec_block_eq, ih (buffer.drop 64) _, chunks_go_succ]

theorem spec_compress_eq (buffer : List Nat) (st : Nat × Nat × Nat × Nat) :
    spec_compress buffer st = chunks_go (buffer.length / 64) buffer st := by
  unfold spec_compress
  rw [range_map_fold]

theorem spec_byte_swap_eq (w : Nat) : spec_byte_swap w = bswap32 w := by
  show w / 2 ^ 24 % 256 + w / 2 ^ 16 % 256 * 2 ^ 8 + w / 2 ^ 8 % 256 * 2 ^ 16 +
      w % 256 * 2 ^ 24 = bswap32 w
  unfold bswap32
  ring

/-- C6: the compression core `calculate_chunks`, translated from the source, refines the
spec's §4.3 description `spec_output`: parse 16 little-endian words per 64-byte block,
run the four rounds of sixteen steps with the `K`/`S` tables mod `2 ^ 32`, add the
registers back per block, and pack the four byte-swapped words with `a` most
significant. -/
theorem calculate_chunks_refines_spec (buffer : List Nat) (a0 b0 c0 d0 : Nat)
    (h : buffer.length % 64 = 0) :
    calculate_chunks buffer a0 b0 c0 d0 = some (spec_output buffer a0 b0 c0 d0) := by
  unfold calculate_chunks spec_output
  rw [if_pos h, spec_compress_eq]
  rcases hres : chunks_go (buffer.length / 64) buffer (a0, b0, c0, d0) with ⟨a, b, c, d⟩
  simp only [spec_byte_swap_eq]
  rfl

theorem calculate_chunks_refines_spec_witness :
    ((List.replicate 64 0).length % 64 = 0) ∧
    calculate_chunks (List.replicate 64 0) 1 2 3 4 =
      some (spec_output (List.replicate 64 0) 1 2 3 4) :=
  ⟨by decide, calculate_chunks_refines_spec (List.replicate 64 0) 1 2 3 4 (by decide)⟩

end Md5Core
namespace Md5Core

set_option maxRecDepth 40000 in
/-- C1: the padding edge cases.  Tail lengths 0, 55, 56, 64, 119 and 120 all preprocess
and digest without error, but a 63-byte input (tail length 63 mod 64, inside the >= 56
wraparound range the claim covers) makes `56 - (len % 64)` underflow in `usize` and the
program panics: modelled as `none`.  This contradicts the claim, which requires every
listed length to succeed; the spec's two-branch signed rule is the evident intent and
the unsigned code a slip (spec §9 flags exactly this). -/
theorem preprocess_underflow_bug :
    preprocess (List.replicate 63 0) 504 = none ∧
    calculate (List.replicate 63 0) = none ∧
    (calculate (List.replicate 0 0)).isSome = true ∧
    (calculate (List.replicate 55 0)).isSome = true ∧
    (calculate (List.replicate 56 0)).isSome = true ∧
    (calculate (List.replicate 64 0)).isSome = true ∧
    (calculate (List.replicate 119 0)).isSome = true ∧
    (calculate (List.replicate 120 0)).isSome = true := by
  decide

/-- C2 (counterexample): for a 57-byte tail the claimed output — tail, `0x80`, zeros to
56 mod 64, then the 8-byte little-endian length — is not returned: `preprocess`
underflows and panics (`none`). -/
theorem preprocess_contract_cex :
    preprocess (List.replicate 57 0) 456 ≠
      some (List.replicate 57 0 ++ 0x80 ::
        (List.replicate 62 0 ++ u64_to_vector_u8_be 456)) := by
  decide

/-- C2 (amended): for every `message_tail` whose length mod 64 is at most 56, and every
`original_bit_length`, `preprocess` returns the tail, one `0x80` byte, zero bytes until
the length is 56 mod 64, then the 8-byte little-endian bit length; the output length is
the smallest multiple of 64 that is >= `len(message_tail) + 9`. -/
theorem preprocess_contract (msg_tail : List Nat) (L : Nat) (h : msg_tail.length % 64 ≤ 56) :
    ∃ z : Nat,
      preprocess msg_tail L =
        some (msg_tail ++ 0x80 :: (List.replicate z 0 ++ u64_to_vector_u8_be L)) ∧
      (msg_tail.length + 1 + z) % 64 = 56 ∧
      (msg_tail ++ 0x80 :: (List.replicate z 0 ++ u64_to_vector_u8_be L)).length % 64 = 0 ∧
      msg_tail.length + 9 ≤
        (msg_tail ++ 0x80 :: (List.replicate z 0 ++ u64_to_vector_u8_be L)).length ∧
      (msg_tail ++ 0x80 :: (List.replicate z 0 ++ u64_to_vector_u8_be L)).length <
        msg_tail.length + 9 + 64 := by
  have hn : (msg_tail.length % 64 = 56 ∧
        (if 56 - msg_tail.length % 64 = 0 then 64 else 56 - msg_tail.length % 64) = 64) ∨
      (msg_tail.length % 64 < 56 ∧
        (if 56 - msg_tail.length % 64 = 0 then 64 else 56 - msg_tail.length % 64) =
          56 - msg_tail.length % 64) := by
    by_cases hz : 56 - msg_tail.length % 64 = 0
    · exact Or.inl ⟨by omega, if_pos hz⟩
    · exact Or.inr ⟨by omega, if_neg hz⟩
  refine ⟨(if 56 - msg_tail.length % 64 = 0 then 64 else 56 - msg_tail.length % 64) - 1,
    preprocess_some msg_tail L h, ?_, pad_len_mod msg_tail L h, ?_, ?_⟩
  · rcases hn with ⟨h1, h2⟩ | ⟨h1, h2⟩ <;> rw [h2] <;> omega
  · simp only [List.length_append, List.length_cons, List.length_replicate,
      u64_bytes_length]
    rcases hn with ⟨h1, h2⟩ | ⟨h1, h2⟩ <;> rw [h2] <;> omega
  · simp only [List.length_append, List.length_cons, List.length_replicate,
      u64_bytes_length]
    rcases hn with ⟨h1, h2⟩ | ⟨h1, h2⟩ <;> rw [h2] <;> omega

theorem preprocess_contract_witness :
    (([] : List Nat).length % 64 ≤ 56) ∧
    ∃ z : Nat,
      preprocess [] 0 = some ([] ++ 0x80 :: (List.replicate z 0 ++ u64_to_vector_u8_be 0)) ∧
      (([] : List Nat).length + 1 + z) % 64 = 56 ∧
      (([] : List Nat) ++ 0x80 :: (List.replicate z 0 ++ u64_to_vector_u8_be 0)).length %
        64 = 0 ∧
      ([] : List Nat).length + 9 ≤
        (([] : List Nat) ++ 0x80 :: (List.replicate z 0 ++ u64_to_vector_u8_be 0)).length ∧
      (([] : List Nat) ++ 0x80 :: (List.replicate z 0 ++ u64_to_vector_u8_be 0)).length <
        ([] : List Nat).length + 9 + 64 :=
  ⟨by decide, preprocess_contract [] 0 (by decide)⟩

set_option maxRecDepth 40000 in
/-- C5: the three documented test vectors: the empty input, `b"helloworld"`, and the
56-byte Lorem-ipsum string whose padding forces a second block. -/
theorem calculate_test_vectors :
    calculate [] = some 0xd41d8cd98f00b204e9800998ecf8427e ∧
    calculate [104, 101, 108, 108, 111, 119, 111, 114, 108, 100] =
      some 0xfc5e038d38a57032085441e7fe7010b0 ∧
    calculate [76, 111, 114, 101, 109, 32, 105, 112, 115, 117, 109, 32, 100, 111, 108,
      111, 114, 32, 115, 105, 116, 32, 97, 109, 101, 116, 44, 32, 99, 111, 110, 115,
      101, 99, 116, 101, 116, 117, 114, 32, 97, 100, 105, 112, 105, 115, 99, 105, 110,
      103, 32, 111, 100, 105, 111, 46] = some 0x2251013dde7bffaa1780cf66fbbaf4bb := by
  decide

end Md5Core
